import Mathlib

/-!
# Verification of the chrome-launcher front-end core

A shallow embedding of the client-side state machine of
`src/routes/+page.svelte`: the search/tag filter computation, the derived
unique-tag list, tag add/remove operations, keyboard-driven selection, the
modal flows, and the YIQ contrast helper.  JavaScript strings are modelled
as Lean `String` (with `toLowerCase` as `String.toLower`, restricted to the
ASCII range, and `trim` as `String.trim`); the `Record<string, Tag[]>` tag
mapping is modelled as an association list in key-insertion order, since
the code relies on `Object.values` iteration order; JavaScript numbers that
take the value `-1` are modelled as `Int`.
-/

/-- A browser profile as loaded from the backend (`type Profile`). -/
structure Profile where
  folder : String
  name : String
  email : Option String
deriving DecidableEq, Repr

/-- A user tag (`type Tag`). -/
structure Tag where
  name : String
  color : String
deriving DecidableEq, Repr

/-- The tag mapping `tags : Record<string, Tag[]>`, in key-insertion order. -/
abbrev TagMap := List (String × List Tag)

/-- `tags[folder] || []`: the tag list of a folder, defaulting to empty. -/
def tagsOf (m : TagMap) (folder : String) : List Tag :=
  match m.lookup folder with
  | some l => l
  | none => []

/-- Assignment `tags[folder] = l` on a JavaScript object: an existing key
keeps its position, a new key is appended at the end. -/
def setTags (m : TagMap) (folder : String) (l : List Tag) : TagMap :=
  if m.any (fun p => p.1 == folder) then
    m.map (fun p => if p.1 == folder then (folder, l) else p)
  else
    m ++ [(folder, l)]

/-- JavaScript `s.toLowerCase()`, modelled character-wise (ASCII range). -/
def strToLower (s : String) : String :=
  ⟨s.toList.map Char.toLower⟩

/-- JavaScript `s.trim()`: strip leading and trailing whitespace. -/
def strTrim (s : String) : String :=
  ⟨((s.toList.dropWhile Char.isWhitespace).reverse.dropWhile
      Char.isWhitespace).reverse⟩

/-- Does `hay` start with `needle`? (helper for `containsSub`). -/
def substrAt : List Char → List Char → Bool
  | [], _ => true
  | _ :: _, [] => false
  | c :: cs, d :: ds => (c == d) && substrAt cs ds

/-- Does `hay` contain `needle` as a contiguous run? (helper for
`strIncludes`). -/
def containsSub (needle : List Char) : List Char → Bool
  | [] => substrAt needle []
  | d :: ds => substrAt needle (d :: ds) || containsSub needle ds

/-- JavaScript `hay.includes(needle)` on strings. -/
def strIncludes (hay needle : String) : Bool :=
  containsSub needle.toList hay.toList

/-- The derived `filteredProfiles` (lines 53-66 of the source): keep the
profiles whose lowercased name or email contains the lowercased search
text, and, unless no filter tag is selected, whose tag-name list contains
every selected filter tag (exact `includes` comparison, as in the code). -/
def filteredProfiles (profiles : List Profile) (search : String)
    (tags : TagMap) (selectedFilterTags : List String) : List Profile :=
  profiles.filter fun p =>
    let q := strToLower search
    let profileTagNames := (tagsOf tags p.folder).map (fun t => t.name)
    let matchesText :=
      strIncludes (strToLower p.name) q ||
        strIncludes (strToLower (p.email.getD "")) q
    let matchesTags :=
      selectedFilterTags.isEmpty ||
        selectedFilterTags.all (fun t => profileTagNames.contains t)
    matchesText && matchesTags

/-- One step of building a JavaScript `Map` from `[key, value]` pairs: an
existing key keeps its position and takes the new value, a new key is
appended at the end. -/
def mapInsert (acc : List (String × Tag)) (k : String) (v : Tag) :
    List (String × Tag) :=
  if acc.any (fun p => p.1 == k) then
    acc.map (fun p => if p.1 == k then (k, v) else p)
  else
    acc ++ [(k, v)]

/-- `Array.from(new Map(l.map(t => [t.name, t])).values())`: deduplicate a
tag list by exact name, in first-occurrence key order, keeping for each
name the value of its last occurrence. -/
def jsMapValues (l : List Tag) : List Tag :=
  (l.foldl (fun acc t => mapInsert acc t.name t) []).map (fun p => p.2)

/-- Strict code-point order on character lists (the model of the
`localeCompare` comparator: `a` sorts strictly before `b`). -/
def strLtb : List Char → List Char → Bool
  | [], [] => false
  | [], _ :: _ => true
  | _ :: _, [] => false
  | c :: cs, d :: ds =>
    if c.toNat < d.toNat then true
    else if d.toNat < c.toNat then false
    else strLtb cs ds

/-- `a.name.localeCompare(b.name) < 0`, modelled as code-point order. -/
def nameLtb (a b : Tag) : Bool :=
  strLtb a.name.toList b.name.toList

/-- Insert a tag into a list sorted by name (helper for `sortByName`). -/
def insertByName (t : Tag) : List Tag → List Tag
  | [] => [t]
  | x :: xs =>
    if nameLtb x t then x :: insertByName t xs else t :: x :: xs

/-- The `.sort((a, b) => a.name.localeCompare(b.name))` call, modelled as a
stable insertion sort with the locale comparator replaced by code-point
order on names. -/
def sortByName (l : List Tag) : List Tag :=
  l.foldr insertByName []

/-- The derived `allUniqueTags` (lines 49-51 of the source):
`Object.values(tags).flat()` fed through a name-keyed `Map`, then sorted by
name. -/
def allUniqueTags (tags : TagMap) : List Tag :=
  sortByName (jsMapValues ((tags.map (fun p => p.2)).flatten))

/-- The preset tag color palette (`PRESET_COLORS`). -/
def PRESET_COLORS : List String :=
  ["#3b82f6", "#10b981", "#f59e0b", "#ef4444",
   "#8b5cf6", "#ec4899", "#06b6d4", "#64748b"]

/-- The mutable component state of the page: `profiles`, `search`, `tags`,
`selected`, `selectedFilterTags`, and the two modal flag groups.  The
selection index is an `Int` because `Math.min(selected + 1, length - 1)`
can produce `-1`.  The presentation-only `isDark` and `tagDropdownOpen`
flags are omitted (no claim concerns them). -/
structure AppState where
  profiles : List Profile
  search : String
  tags : TagMap
  selected : Int
  selectedFilterTags : List String
  addModalOpen : Bool
  addModalFolder : String
  newTagName : String
  newTagColor : String
  removeModalOpen : Bool
  removeModalFolder : String
  removeModalTag : Option Tag
deriving DecidableEq, Repr

/-- The filtered list as seen from a state. -/
def filteredOf (st : AppState) : List Profile :=
  filteredProfiles st.profiles st.search st.tags st.selectedFilterTags

/-- `openAddTagModal(folder)` (lines 129-135): capture the folder, clear
the draft name, pick a palette color (the `Math.random` pick is modelled as
the explicit `color` argument), open the add modal. -/
def openAddTagModal (st : AppState) (folder : String) (color : String) :
    AppState :=
  { st with
    addModalFolder := folder
    newTagName := ""
    newTagColor := color
    addModalOpen := true }

/-- `openRemoveTagModal(folder, tag)` (lines 153-157). -/
def openRemoveTagModal (st : AppState) (folder : String) (tag : Tag) :
    AppState :=
  { st with
    removeModalFolder := folder
    removeModalTag := some tag
    removeModalOpen := true }

/-- `confirmAddTag()` (lines 137-151): no-op when the trimmed draft name is
empty or duplicates (case-insensitively) a tag of the target folder,
otherwise append the new tag; the modal closes in every case. -/
def confirmAddTag (st : AppState) : AppState :=
  if strTrim st.newTagName == "" then
    { st with addModalOpen := false }
  else
    let cleanName := strTrim st.newTagName
    if (tagsOf st.tags st.addModalFolder).any
        (fun t => strToLower t.name == strToLower cleanName) then
      { st with addModalOpen := false }
    else
      { st with
        tags := setTags st.tags st.addModalFolder
          (tagsOf st.tags st.addModalFolder ++
            [{ name := cleanName, color := st.newTagColor }])
        addModalOpen := false }

/-- `confirmRemoveTag()` (lines 159-173): when a target tag and a non-empty
folder are captured, drop the exact-name matches from that folder, and when
no tag of that exact name remains anywhere, filter the name out of
`selectedFilterTags` (which, being an assignment to a watched variable,
also reruns the reactive block of lines 68-72 and resets `selected`). -/
def confirmRemoveTag (st : AppState) : AppState :=
  match st.removeModalTag with
  | some tag =>
    if st.removeModalFolder = "" then
      { st with removeModalOpen := false }
    else
      let tags1 := setTags st.tags st.removeModalFolder
        ((tagsOf st.tags st.removeModalFolder).filter
          (fun t => !(t.name == tag.name)))
      let remainingGlobal := ((tags1.map (fun p => p.2)).flatten).any
        (fun t => t.name == tag.name)
      if remainingGlobal then
        { st with
          tags := tags1
          removeModalOpen := false }
      else
        { st with
          tags := tags1
          selectedFilterTags := st.selectedFilterTags.filter
            (fun x => !(x == tag.name))
          selected := 0
          removeModalOpen := false }
  | none => { st with removeModalOpen := false }

/-- The user events the claims range over: list navigation (lines 192-201),
edits to the two filter inputs (which rerun the reactive reset of lines
68-72), and the modal operations. -/
inductive Ev where
  | arrowDown
  | arrowUp
  | setSearch (s : String)
  | setFilterTags (ts : List String)
  | openAdd (folder : String) (color : String)
  | openRemove (folder : String) (tag : Tag)
  | setNewTagName (s : String)
  | confirmAdd
  | confirmRemove
  | escape
deriving DecidableEq, Repr

/-- One event step.  Arrow keys are ignored while a modal is open
(`handleKey` returns early, lines 181-190); `Escape` closes the open
modal.  Edits to `search` or `selectedFilterTags` reset `selected` to 0
(reactive block, lines 68-72). -/
def step (st : AppState) : Ev → AppState
  | .arrowDown =>
    if st.addModalOpen || st.removeModalOpen then st
    else { st with
      selected := min (st.selected + 1) (((filteredOf st).length : Int) - 1) }
  | .arrowUp =>
    if st.addModalOpen || st.removeModalOpen then st
    else { st with selected := max (st.selected - 1) 0 }
  | .setSearch s => { st with search := s, selected := 0 }
  | .setFilterTags ts => { st with selectedFilterTags := ts, selected := 0 }
  | .openAdd folder color => openAddTagModal st folder color
  | .openRemove folder tag => openRemoveTagModal st folder tag
  | .setNewTagName s => { st with newTagName := s }
  | .confirmAdd => confirmAddTag st
  | .confirmRemove => confirmRemoveTag st
  | .escape =>
    if st.addModalOpen then { st with addModalOpen := false }
    else if st.removeModalOpen then { st with removeModalOpen := false }
    else st

/-- Run a sequence of events. -/
def run (st : AppState) (evs : List Ev) : AppState :=
  evs.foldl step st

/-- Hexadecimal value of one character, as accepted by `parseInt(_, 16)`. -/
def hexVal (c : Char) : Option Nat :=
  if '0' ≤ c ∧ c ≤ '9' then some (c.toNat - '0'.toNat)
  else if 'a' ≤ c ∧ c ≤ 'f' then some (c.toNat - 'a'.toNat + 10)
  else if 'A' ≤ c ∧ c ≤ 'F' then some (c.toNat - 'A'.toNat + 10)
  else none

/-- Accumulate the longest hex-digit run (helper for `parseIntHex`). -/
def hexAcc : List Char → Nat → Nat
  | [], acc => acc
  | c :: cs, acc =>
    match hexVal c with
    | some d => hexAcc cs (acc * 16 + d)
    | none => acc

/-- JavaScript `parseInt(s, 16)` on the strings this code feeds it: the
longest leading hex-digit run, `none` (NaN) when the first character is not
a hex digit or the string is empty. -/
def parseIntHex : List Char → Option Nat
  | [] => none
  | c :: cs =>
    match hexVal c with
    | some d => some (hexAcc cs d)
    | none => none

/-- Drop the first occurrence of a character: `s.replace("#", "")` with a
string pattern replaces only the first match. -/
def removeFirst (c : Char) : List Char → List Char
  | [] => []
  | d :: ds => if d == c then ds else d :: removeFirst c ds

/-- `getContrastYIQ(hexcolor)` (lines 109-117): strip the first `#`, expand
a 3-digit value by doubling each character, parse the three channel pairs,
and compare `(r*299 + g*587 + b*114) / 1000` against 128 (done here without
the exact division: `yiq >= 128` iff the weighted sum is at least 128000).
A failed parse makes `yiq` NaN in JavaScript, and `NaN >= 128` is false,
hence the `"#ffffff"` fallback branch. -/
def getContrastYIQ (hexcolor : String) : String :=
  let h0 := removeFirst '#' hexcolor.toList
  let h := if h0.length = 3 then h0.flatMap (fun c => [c, c]) else h0
  match parseIntHex (h.take 2), parseIntHex ((h.drop 2).take 2),
      parseIntHex ((h.drop 4).take 2) with
  | some r, some g, some b =>
    if r * 299 + g * 587 + b * 114 ≥ 128000 then "#171717" else "#ffffff"
  | _, _, _ => "#ffffff"

/-! ## Substring correctness -/

/-- `substrAt` decides the prefix relation. -/
theorem substrAt_iff (n h : List Char) : substrAt n h = true ↔ n <+: h := by
  induction n generalizing h with
  | nil => simp [substrAt, List.nil_prefix]
  | cons c cs ih =>
    cases h with
    | nil => simp [substrAt, List.prefix_nil]
    | cons d ds =>
      rw [show substrAt (c :: cs) (d :: ds) = ((c == d) && substrAt cs ds)
          from rfl,
        Bool.and_eq_true, beq_iff_eq, ih, List.cons_prefix_cons]

/-- `containsSub` decides the contiguous-substring (infix) relation. -/
theorem containsSub_iff (n h : List Char) : containsSub n h = true ↔ n <:+: h := by
  induction h with
  | nil => simp [containsSub, substrAt_iff, List.prefix_nil, List.infix_nil]
  | cons d ds ih =>
    rw [containsSub, Bool.or_eq_true, substrAt_iff, ih, List.infix_cons_iff]

/-! ## Claim C1: the filter predicate -/

/-- The filter predicate exactly as claim C1 words it: the search text is a
case-insensitive substring of the name or of the email (empty when absent),
and the selected filter-tag set is empty or every selected tag name is
present case-insensitively among the profile's own tag names. -/
def claimC1Match (search : String) (tags : TagMap) (sel : List String)
    (p : Profile) : Prop :=
  ((strToLower search).toList <:+: (strToLower p.name).toList ∨
    (strToLower search).toList <:+: (strToLower (p.email.getD "")).toList) ∧
  (sel = [] ∨ ∀ n ∈ sel, ∃ t ∈ tagsOf tags p.folder,
    strToLower t.name = strToLower n)

instance (search : String) (tags : TagMap) (sel : List String)
    (p : Profile) : Decidable (claimC1Match search tags sel p) := by
  unfold claimC1Match; infer_instance

/-- The amended filter predicate: as claim C1, except that a selected tag
name must be present among the profile's tag names by exact (also
case-sensitive) string equality. -/
def specC1Match (search : String) (tags : TagMap) (sel : List String)
    (p : Profile) : Prop :=
  ((strToLower search).toList <:+: (strToLower p.name).toList ∨
    (strToLower search).toList <:+: (strToLower (p.email.getD "")).toList) ∧
  (sel = [] ∨ ∀ n ∈ sel, n ∈ (tagsOf tags p.folder).map (fun t => t.name))

instance (search : String) (tags : TagMap) (sel : List String)
    (p : Profile) : Decidable (specC1Match search tags sel p) := by
  unfold specC1Match; infer_instance

/-- A tag mapping and a profile used to refute claim C1. -/
def tgC1 : TagMap := [("a", [{ name := "Work", color := "#fff" }])]

/-- The profile used to refute claim C1. -/
def pC1 : Profile := { folder := "a", name := "Alice", email := none }

/-- C1, counterexample: with the tag `Work` on profile `a` and the selected
filter-tag set `["work"]`, the profile satisfies the claim's predicate (the
selected name is present case-insensitively among its tag names), yet the
code excludes it: `selectedFilterTags.every((t) => profileTagNames.
includes(t))` compares names case-sensitively. -/
theorem C1_counterexample :
    claimC1Match "" tgC1 ["work"] pC1 ∧
      pC1 ∉ filteredProfiles [pC1] "" tgC1 ["work"] := by
  constructor
  · constructor
    · exact Or.inl List.nil_infix
    · exact Or.inr (by decide)
  · decide

/-- C1, amended: the filtered profile list equals exactly the profiles
whose name or email (empty string if absent) contains the search text
case-insensitively AND for which the selected filter-tag set is empty or
every selected tag name is present by exact string equality (not
case-insensitively) among that profile's own tag names, the output
preserving the original profile enumeration order (`List.filter`). -/
theorem C1_amended_filter_spec (ps : List Profile) (s : String) (tg : TagMap)
    (sel : List String) :
    filteredProfiles ps s tg sel =
      ps.filter (fun p => decide (specC1Match s tg sel p)) := by
  unfold filteredProfiles
  apply List.filter_congr
  intro p _
  rw [Bool.eq_iff_iff]
  simp only [Bool.and_eq_true, Bool.or_eq_true, strIncludes, containsSub_iff,
    List.isEmpty_iff, List.all_eq_true, decide_eq_true_eq, specC1Match]
  simp

/-! ## Claim C9: the contrast function -/

/-- `parseInt` of a well-formed two-hex-digit string. -/
theorem parseIntHex_pair (c1 c2 : Char) (d1 d2 : ℕ) (h1 : hexVal c1 = some d1)
    (h2 : hexVal c2 = some d2) :
    parseIntHex [c1, c2] = some (d1 * 16 + d2) := by
  simp [parseIntHex, hexAcc, h1, h2]

/-- `getContrastYIQ` on a well-formed `#`-prefixed 6-digit hex color. -/
theorem getContrastYIQ_six (c1 c2 c3 c4 c5 c6 : Char) (d1 d2 d3 d4 d5 d6 : ℕ)
    (h1 : hexVal c1 = some d1) (h2 : hexVal c2 = some d2)
    (h3 : hexVal c3 = some d3) (h4 : hexVal c4 = some d4)
    (h5 : hexVal c5 = some d5) (h6 : hexVal c6 = some d6) :
    getContrastYIQ ⟨['#', c1, c2, c3, c4, c5, c6]⟩ =
      if 128000 ≤ (d1 * 16 + d2) * 299 + (d3 * 16 + d4) * 587 +
          (d5 * 16 + d6) * 114 then "#171717" else "#ffffff" := by
  simp only [getContrastYIQ]
  rw [show removeFirst '#' (String.toList ⟨['#', c1, c2, c3, c4, c5, c6]⟩) =
    [c1, c2, c3, c4, c5, c6] by simp [removeFirst]]
  norm_num
  rw [parseIntHex_pair c1 c2 d1 d2 h1 h2, parseIntHex_pair c3 c4 d3 d4 h3 h4,
    parseIntHex_pair c5 c6 d5 d6 h5 h6]

/-- The exact-rational luma threshold of the spec (`0.299*R + 0.587*G +
0.114*B ≥ 128`) agrees with the integer comparison the code performs. -/
theorem luma_iff (r g b : ℕ) :
    ((128 : ℚ) ≤ 0.299 * r + 0.587 * g + 0.114 * b) ↔
      128000 ≤ 299 * r + 587 * g + 114 * b := by
  rw [show (0.299 : ℚ) * r + 0.587 * g + 0.114 * b =
      ((299 * r + 587 * g + 114 * b : ℕ) : ℚ) / 1000 by push_cast; ring,
    le_div_iff₀ (by norm_num)]
  constructor
  · intro h; exact_mod_cast h
  · intro h; exact_mod_cast h

/-- C9: the contrast function is pure and deterministic over well-formed
3- or 6-digit hex input: it expands 3-digit hex by doubling each channel
character, computes luma as `0.299*R + 0.587*G + 0.114*B` (stated exactly
over `ℚ`), and returns the near-black `"#171717"` when the luma is at
least 128 and `"#ffffff"` otherwise; in particular
`getContrastYIQ "#000000" = "#ffffff"` and
`getContrastYIQ "#ffffff" = "#171717"`. -/
theorem C9_contrast_spec :
    getContrastYIQ "#000000" = "#ffffff" ∧
    getContrastYIQ "#ffffff" = "#171717" ∧
    (∀ r g b : ℕ, ((128 : ℚ) ≤ 0.299 * r + 0.587 * g + 0.114 * b) ↔
      128000 ≤ 299 * r + 587 * g + 114 * b) ∧
    (∀ c1 c2 c3 c4 c5 c6 : Char, ∀ d1 d2 d3 d4 d5 d6 : ℕ,
      hexVal c1 = some d1 → hexVal c2 = some d2 → hexVal c3 = some d3 →
      hexVal c4 = some d4 → hexVal c5 = some d5 → hexVal c6 = some d6 →
      getContrastYIQ ⟨['#', c1, c2, c3, c4, c5, c6]⟩ =
        if (128 : ℚ) ≤ 0.299 * ((16 * d1 + d2 : ℕ) : ℚ) +
            0.587 * ((16 * d3 + d4 : ℕ) : ℚ) + 0.114 * ((16 * d5 + d6 : ℕ) : ℚ)
        then "#171717" else "#ffffff") ∧
    (∀ c1 c2 c3 : Char,
      getContrastYIQ ⟨['#', c1, c2, c3]⟩ =
        getContrastYIQ ⟨['#', c1, c1, c2, c2, c3, c3]⟩) := by
  refine ⟨by decide, by decide, luma_iff, ?_, ?_⟩
  · intro c1 c2 c3 c4 c5 c6 d1 d2 d3 d4 d5 d6 h1 h2 h3 h4 h5 h6
    rw [getContrastYIQ_six c1 c2 c3 c4 c5 c6 d1 d2 d3 d4 d5 d6
      h1 h2 h3 h4 h5 h6]
    refine if_congr ?_ rfl rfl
    rw [luma_iff]
    constructor
    · intro h; omega
    · intro h; omega
  · intro c1 c2 c3
    rfl

/-- C9, witness: the general six-digit conjunct evaluated at `#3b82f6`
(the default blue; luma 121.995, below the threshold). -/
theorem C9_contrast_witness :
    getContrastYIQ ⟨['#', '3', 'b', '8', '2', 'f', '6']⟩ = "#ffffff" := by
  rw [C9_contrast_spec.2.2.2.1 '3' 'b' '8' '2' 'f' '6' 3 11 8 2 15 6
    (by decide) (by decide) (by decide) (by decide) (by decide) (by decide)]
  rw [if_congr (C9_contrast_spec.2.2.1 (16 * 3 + 11) (16 * 8 + 2) (16 * 15 + 6))
    rfl rfl]
  decide

/-! ## Claims C2, C3, C8: the selection index -/

/-- The selection invariant that actually holds: `selected` is a valid
index of the filtered list when that list is nonempty, and is `0` or `-1`
when it is empty (`Math.min(selected + 1, length - 1)` yields `-1` on an
empty list). -/
def SelInv (st : AppState) : Prop :=
  (0 ≤ st.selected ∧ st.selected ≤ ((filteredOf st).length : Int) - 1) ∨
  ((filteredOf st).length = 0 ∧ (st.selected = 0 ∨ st.selected = -1))

/-- The events claim C2 quantifies over: arrow-key navigation and edits of
the two filter inputs. -/
def navFilterEv : Ev → Bool
  | .arrowDown => true
  | .arrowUp => true
  | .setSearch _ => true
  | .setFilterTags _ => true
  | _ => false

/-- One navigation or filter-input event preserves `SelInv`. -/
theorem SelInv_step (st : AppState) (e : Ev) (h : SelInv st)
    (he : navFilterEv e = true) : SelInv (step st e) := by
  cases e with
  | arrowDown =>
    by_cases hm : (st.addModalOpen || st.removeModalOpen) = true
    · simpa [step, hm] using h
    · have h1 : (step st Ev.arrowDown).selected =
          min (st.selected + 1) (((filteredOf st).length : Int) - 1) := by
        simp [step, hm]
      have h2 : filteredOf (step st Ev.arrowDown) = filteredOf st := by
        simp [step, hm, filteredOf]
      unfold SelInv at h ⊢
      rw [h1, h2]
      omega
  | arrowUp =>
    by_cases hm : (st.addModalOpen || st.removeModalOpen) = true
    · simpa [step, hm] using h
    · have h1 : (step st Ev.arrowUp).selected = max (st.selected - 1) 0 := by
        simp [step, hm]
      have h2 : filteredOf (step st Ev.arrowUp) = filteredOf st := by
        simp [step, hm, filteredOf]
      unfold SelInv at h ⊢
      rw [h1, h2]
      omega
  | setSearch s =>
    have h1 : (step st (Ev.setSearch s)).selected = 0 := rfl
    unfold SelInv
    rw [h1]
    omega
  | setFilterTags ts =>
    have h1 : (step st (Ev.setFilterTags ts)).selected = 0 := rfl
    unfold SelInv
    rw [h1]
    omega
  | openAdd f c => simp [navFilterEv] at he
  | openRemove f t => simp [navFilterEv] at he
  | setNewTagName s => simp [navFilterEv] at he
  | confirmAdd => simp [navFilterEv] at he
  | confirmRemove => simp [navFilterEv] at he
  | escape => simp [navFilterEv] at he

/-- `SelInv` is decidable, so concrete instances can be checked. -/
instance (st : AppState) : Decidable (SelInv st) := by
  unfold SelInv; infer_instance

/-- A base state with everything empty and both modals closed. -/
def stBase : AppState :=
  { profiles := []
    search := ""
    tags := []
    selected := 0
    selectedFilterTags := []
    addModalOpen := false
    addModalFolder := ""
    newTagName := ""
    newTagColor := "#3b82f6"
    removeModalOpen := false
    removeModalFolder := ""
    removeModalTag := none }

/-- Three profiles used in the concrete scenarios. -/
def pAnn : Profile := { folder := "a", name := "Ann", email := none }

/-- Second scenario profile. -/
def pBob : Profile := { folder := "b", name := "Bob", email := none }

/-- Third scenario profile. -/
def pCid : Profile := { folder := "c", name := "Cid", email := none }

/-- A state whose filtered list has two entries. -/
def stTwo : AppState := { stBase with profiles := [pAnn, pBob] }

/-- A state with three visible profiles and `selected = 1`. -/
def stC8 : AppState :=
  { stBase with
    profiles := [pAnn, pBob, pCid]
    selected := 1 }

/-- C2, counterexample: starting from the empty-list base state, a single
`ArrowDown` drives `selected` to `-1`, outside the claimed interval
`[0, max(0, len(filteredProfiles) - 1)]` (the code computes
`Math.min(0 + 1, -1) = -1` instead of staying at 0). -/
theorem C2_counterexample :
    ¬ (0 ≤ (run stBase [Ev.arrowDown]).selected ∧
      (run stBase [Ev.arrowDown]).selected ≤
        max 0 (((filteredOf (run stBase [Ev.arrowDown])).length : Int) - 1)) := by
  decide

/-- C2, amended: after every sequence of navigation events (`ArrowDown`,
`ArrowUp`) and filter-input changes from a state satisfying it, the
invariant `SelInv` holds: `selected` lies in `[0, len(filteredProfiles)-1]`
whenever the filtered list is nonempty, and is `0` or `-1` when the
filtered list is empty (`-1` arises from `ArrowDown` on an empty list). -/
theorem C2_amended_selected_invariant (st : AppState) (evs : List Ev)
    (h0 : SelInv st) (he : ∀ e ∈ evs, navFilterEv e = true) :
    SelInv (run st evs) := by
  induction evs generalizing st with
  | nil => exact h0
  | cons e rest ih =>
    exact ih (step st e)
      (SelInv_step st e h0 (he e (List.mem_cons_self e rest)))
      (fun e' he' => he e' (List.mem_cons_of_mem e he'))

/-- C2, witness: the invariant after a concrete run on a two-item list. -/
theorem C2_selected_invariant_witness :
    SelInv (run stTwo [Ev.arrowDown, Ev.arrowUp, Ev.arrowDown]) :=
  C2_amended_selected_invariant stTwo [Ev.arrowDown, Ev.arrowUp, Ev.arrowDown]
    (by decide) (by decide)

/-- C3, counterexample: on an empty filtered list, `ArrowDown` is not a
no-op that keeps `selected = 0`: the code's
`Math.min(selected + 1, length - 1)` sets `selected = -1`. -/
theorem C3_counterexample :
    filteredOf stBase = [] ∧ stBase.selected = 0 ∧
      (step stBase Ev.arrowDown).selected = -1 ∧
      (step stBase Ev.arrowDown).selected ≠ 0 := by
  decide

/-- C3, amended: with no modal open, `ArrowDown` always sets `selected` to
`min(selected + 1, len(filteredProfiles) - 1)` — in particular pressing it
5 times on a 2-item filtered list leaves `selected = 1`, and on an empty
filtered list it yields `-1` rather than staying at 0. -/
theorem C3_amended_arrowdown (st : AppState) (hA : st.addModalOpen = false)
    (hR : st.removeModalOpen = false) :
    (step st Ev.arrowDown).selected =
      min (st.selected + 1) (((filteredOf st).length : Int) - 1) ∧
    (run stTwo (List.replicate 5 Ev.arrowDown)).selected = 1 := by
  constructor
  · simp [step, hA, hR]
  · decide

/-- C3, witness: the `ArrowDown` formula applied at the two-item state. -/
theorem C3_arrowdown_witness :
    (step stTwo Ev.arrowDown).selected =
      min (stTwo.selected + 1) (((filteredOf stTwo).length : Int) - 1) :=
  (C3_amended_arrowdown stTwo rfl rfl).1

/-- C8: editing the search text or the selected filter-tag set always
resets `selected` to 0 (the reactive block of lines 68-72), even when the
previously selected profile is still present: concretely, typing `b` while
`selected = 1` on a 3-item list narrows it to 1 item and resets `selected`
to 0. -/
theorem C8_filter_edit_resets (st : AppState) (s : String)
    (ts : List String) :
    (step st (Ev.setSearch s)).selected = 0 ∧
    (step st (Ev.setFilterTags ts)).selected = 0 ∧
    (stC8.selected = 1 ∧ (filteredOf stC8).length = 3 ∧
      (filteredOf (step stC8 (Ev.setSearch "b"))).length = 1 ∧
      (step stC8 (Ev.setSearch "b")).selected = 0) := by
  refine ⟨rfl, rfl, by decide⟩

/-! ## The tag map update -/

/-- Key update inside `setTags`: looking up the updated key finds the new
value. -/
theorem lookup_map_update (m : TagMap) (folder : String) (l : List Tag)
    (hany : m.any (fun p => p.1 == folder) = true) :
    List.lookup folder
      (m.map (fun p => if p.1 == folder then (folder, l) else p)) = some l := by
  induction m with
  | nil => simp at hany
  | cons p rest ih =>
    obtain ⟨k, v⟩ := p
    simp only [List.map_cons]
    by_cases hp : (k == folder) = true
    · rw [if_pos hp]
      simp only [List.lookup, beq_self_eq_true]
    · rw [if_neg hp]
      have hkf : (folder == k) = false := by
        rw [beq_eq_false_iff_ne]
        rw [Bool.not_eq_true, beq_eq_false_iff_ne] at hp
        exact fun h => hp h.symm
      have hrest : rest.any (fun p => p.1 == folder) = true := by
        simpa [List.any_cons, hp] using hany
      simp only [List.lookup, hkf]
      exact ih hrest

/-- Key update inside `setTags` leaves other keys untouched. -/
theorem lookup_map_update_ne (m : TagMap) (folder g : String) (l : List Tag)
    (hne : g ≠ folder) :
    List.lookup g (m.map (fun p => if p.1 == folder then (folder, l) else p)) =
      List.lookup g m := by
  have hgf : (g == folder) = false := beq_eq_false_iff_ne.mpr hne
  induction m with
  | nil => rfl
  | cons p rest ih =>
    obtain ⟨k, v⟩ := p
    simp only [List.map_cons]
    by_cases hp : (k == folder) = true
    · rw [if_pos hp]
      have hk : k = folder := by simpa using hp
      have hgk : (g == k) = false := by rw [hk]; exact hgf
      simp only [List.lookup, hgf, hgk]
      exact ih
    · rw [if_neg hp]
      by_cases hg : (g == k) = true
      · simp only [List.lookup, hg]
      · have hgk : (g == k) = false := by
          rwa [Bool.not_eq_true] at hg
        simp only [List.lookup, hgk]
        exact ih

/-- A key matching no entry has no binding. -/
theorem lookup_of_any_false (m : TagMap) (folder : String)
    (hany : m.any (fun p => p.1 == folder) = false) :
    List.lookup folder m = none := by
  induction m with
  | nil => rfl
  | cons p rest ih =>
    obtain ⟨k, v⟩ := p
    simp only [List.any_cons, Bool.or_eq_false_iff] at hany
    have hkf : (folder == k) = false := by
      rw [beq_eq_false_iff_ne]
      have h1 : k ≠ folder := beq_eq_false_iff_ne.mp hany.1
      exact fun h => h1 h.symm
    simp only [List.lookup, hkf]
    exact ih hany.2

/-- Lookup through an appended single binding. -/
theorem lookup_append_one (m : TagMap) (g folder : String) (l : List Tag) :
    List.lookup g (m ++ [(folder, l)]) =
      match List.lookup g m with
      | some v => some v
      | none => if g == folder then some l else none := by
  induction m with
  | nil =>
    by_cases hg : (g == folder) = true
    · simp only [List.nil_append, List.lookup, hg]
      simp
    · have hgf : (g == folder) = false := by rwa [Bool.not_eq_true] at hg
      simp only [List.nil_append, List.lookup, hgf]
      simp
  | cons p rest ih =>
    obtain ⟨k, v⟩ := p
    by_cases hg : (g == k) = true
    · simp only [List.cons_append, List.lookup, hg]
    · have hgk : (g == k) = false := by rwa [Bool.not_eq_true] at hg
      simp only [List.cons_append, List.lookup, hgk]
      exact ih

/-- Reading back the folder just assigned by `setTags`. -/
theorem tagsOf_setTags_self (m : TagMap) (folder : String) (l : List Tag) :
    tagsOf (setTags m folder l) folder = l := by
  unfold setTags
  by_cases hany : m.any (fun p => p.1 == folder) = true
  · rw [if_pos hany]
    unfold tagsOf
    rw [lookup_map_update m folder l hany]
  · rw [if_neg hany]
    unfold tagsOf
    rw [lookup_append_one, lookup_of_any_false m folder
      (by rwa [Bool.not_eq_true] at hany)]
    simp

/-- `setTags` does not touch any other folder. -/
theorem tagsOf_setTags_ne (m : TagMap) (folder g : String) (l : List Tag)
    (hne : g ≠ folder) : tagsOf (setTags m folder l) g = tagsOf m g := by
  unfold setTags
  by_cases hany : m.any (fun p => p.1 == folder) = true
  · rw [if_pos hany]
    unfold tagsOf
    rw [lookup_map_update_ne m folder g l hne]
  · rw [if_neg hany]
    unfold tagsOf
    rw [lookup_append_one]
    rw [show (g == folder) = false from beq_eq_false_iff_ne.mpr hne]
    cases List.lookup g m <;> simp

/-! ## Claims C5, C10, C4: the tag operations -/

/-- C5: `confirmAddTag` trims the raw draft name; when the trimmed name is
empty, or the folder already has a tag whose name equals it
case-insensitively, the tag mapping is left entirely unchanged; otherwise
the new `{name, color}` entry is appended at the end of that folder's
sequence, the existing order intact. -/
theorem C5_addTag_spec (st : AppState) :
    ((strTrim st.newTagName = "" ∨
        ∃ t ∈ tagsOf st.tags st.addModalFolder,
          strToLower t.name = strToLower (strTrim st.newTagName)) →
      (confirmAddTag st).tags = st.tags) ∧
    (strTrim st.newTagName ≠ "" →
      (∀ t ∈ tagsOf st.tags st.addModalFolder,
        strToLower t.name ≠ strToLower (strTrim st.newTagName)) →
      tagsOf (confirmAddTag st).tags st.addModalFolder =
        tagsOf st.tags st.addModalFolder ++
          [{ name := strTrim st.newTagName, color := st.newTagColor }]) := by
  constructor
  · rintro (h | ⟨t, ht, hte⟩)
    · have hb : (strTrim st.newTagName == "") = true := by simp [h]
      simp [confirmAddTag, hb]
    · by_cases h0 : (strTrim st.newTagName == "") = true
      · simp [confirmAddTag, h0]
      · have hany : ((tagsOf st.tags st.addModalFolder).any
            (fun t => strToLower t.name ==
              strToLower (strTrim st.newTagName))) = true :=
          List.any_eq_true.mpr ⟨t, ht, by simp [hte]⟩
        simp [confirmAddTag, h0, hany]
  · intro h0 hnone
    have h0b : ¬ (strTrim st.newTagName == "") = true := by simpa using h0
    have hany : ((tagsOf st.tags st.addModalFolder).any
        (fun t => strToLower t.name ==
          strToLower (strTrim st.newTagName))) = false := by
      rw [Bool.eq_false_iff]
      intro hcontra
      obtain ⟨t, ht, hte⟩ := List.any_eq_true.mp hcontra
      exact hnone t ht (by simpa using hte)
    have htags : (confirmAddTag st).tags =
        setTags st.tags st.addModalFolder
          (tagsOf st.tags st.addModalFolder ++
            [{ name := strTrim st.newTagName, color := st.newTagColor }]) := by
      simp [confirmAddTag, h0b, hany]
    rw [htags, tagsOf_setTags_self]

/-- C10: confirming an add-tag or remove-tag operation leaves the profile
list, the search text and every other folder's tag sequence unchanged (and
`confirmAddTag` also leaves the selected filter-tag set unchanged). -/
theorem C10_tag_ops_frame (st : AppState) :
    (confirmAddTag st).profiles = st.profiles ∧
    (confirmAddTag st).search = st.search ∧
    (confirmAddTag st).selectedFilterTags = st.selectedFilterTags ∧
    (∀ g, g ≠ st.addModalFolder →
      tagsOf (confirmAddTag st).tags g = tagsOf st.tags g) ∧
    (confirmRemoveTag st).profiles = st.profiles ∧
    (confirmRemoveTag st).search = st.search ∧
    (∀ g, g ≠ st.removeModalFolder →
      tagsOf (confirmRemoveTag st).tags g = tagsOf st.tags g) := by
  refine ⟨?_, ?_, ?_, ?_, ?_, ?_, ?_⟩
  · unfold confirmAddTag; dsimp only; split_ifs <;> rfl
  · unfold confirmAddTag; dsimp only; split_ifs <;> rfl
  · unfold confirmAddTag; dsimp only; split_ifs <;> rfl
  · intro g hg
    unfold confirmAddTag
    dsimp only
    split_ifs <;> first
      | rfl
      | exact tagsOf_setTags_ne st.tags st.addModalFolder g _ hg
  · unfold confirmRemoveTag
    cases st.removeModalTag <;> dsimp only <;> split_ifs <;> rfl
  · unfold confirmRemoveTag
    cases st.removeModalTag <;> dsimp only <;> split_ifs <;> rfl
  · intro g hg
    unfold confirmRemoveTag
    cases st.removeModalTag <;> dsimp only <;> split_ifs <;> first
      | rfl
      | exact tagsOf_setTags_ne st.tags st.removeModalFolder g _ hg

/-- C4, amended: `confirmRemoveTag` removes from the target folder the
entries whose name equals `tag.name` by exact (case-sensitive, not
case-insensitive) string equality, and when no profile anywhere still
carries a tag of that exact name, the name is purged from
`selectedFilterTags`. -/
theorem C4_amended_removeTag (st : AppState) (tag : Tag)
    (h1 : st.removeModalTag = some tag) (h2 : st.removeModalFolder ≠ "") :
    tagsOf (confirmRemoveTag st).tags st.removeModalFolder =
      (tagsOf st.tags st.removeModalFolder).filter
        (fun t => decide (t.name ≠ tag.name)) ∧
    ((∀ t ∈ ((confirmRemoveTag st).tags.map (fun p => p.2)).flatten,
        t.name ≠ tag.name) →
      tag.name ∉ (confirmRemoveTag st).selectedFilterTags) := by
  have hfilter : (fun t : Tag => !(t.name == tag.name)) =
      (fun t : Tag => decide (t.name ≠ tag.name)) := by
    funext t
    by_cases h : t.name = tag.name <;> simp [h]
  unfold confirmRemoveTag
  rw [h1]
  dsimp only
  rw [if_neg h2]
  split_ifs with hrem
  · constructor
    · dsimp only
      rw [tagsOf_setTags_self, hfilter]
    · intro hall
      exfalso
      obtain ⟨t, ht, hte⟩ := List.any_eq_true.mp hrem
      exact hall t ht (by simpa using hte)
  · constructor
    · dsimp only
      rw [tagsOf_setTags_self, hfilter]
    · intro _
      dsimp only
      simp [List.mem_filter]

/-- Add-modal state about to append a trimmed tag to folder `a`. -/
def stAddW : AppState :=
  { stBase with
    tags := [("a", [{ name := "Home", color := "#10b981" }])]
    addModalOpen := true
    addModalFolder := "a"
    newTagName := "  Work "
    newTagColor := "#3b82f6" }

/-- Add-modal state whose draft name duplicates an existing tag up to
case. -/
def stAddDup : AppState :=
  { stBase with
    tags := [("a", [{ name := "work", color := "#10b981" }])]
    addModalOpen := true
    addModalFolder := "a"
    newTagName := "Work"
    newTagColor := "#3b82f6" }

/-- C5, witness: the append branch evaluated on `stAddW` and the
case-insensitive-duplicate no-op branch on `stAddDup`. -/
theorem C5_addTag_witness :
    tagsOf (confirmAddTag stAddW).tags stAddW.addModalFolder =
      tagsOf stAddW.tags stAddW.addModalFolder ++
        [{ name := strTrim stAddW.newTagName, color := stAddW.newTagColor }] ∧
    (confirmAddTag stAddDup).tags = stAddDup.tags :=
  ⟨(C5_addTag_spec stAddW).2 (by decide) (by decide),
   (C5_addTag_spec stAddDup).1 (Or.inr (by decide))⟩

/-- Remove-modal state targeting `WORK` on folder `f` through a tag object
whose name differs only in case. -/
def stRem : AppState :=
  { stBase with
    tags := [("f", [{ name := "WORK", color := "#ef4444" }])]
    removeModalOpen := true
    removeModalFolder := "f"
    removeModalTag := some { name := "work", color := "#ef4444" } }

/-- Remove-modal state targeting the last occurrence of `Work` while it is
also a selected filter tag. -/
def stRemW : AppState :=
  { stBase with
    tags := [("f", [{ name := "Work", color := "#ef4444" }]),
             ("g", [{ name := "Other", color := "#111111" }])]
    selectedFilterTags := ["Work"]
    removeModalOpen := true
    removeModalFolder := "f"
    removeModalTag := some { name := "Work", color := "#ef4444" } }

/-- C4, counterexample: confirming removal of the tag object named `work`
from a folder whose entry is named `WORK` removes nothing: line 161 filters
with the exact comparison `t.name !== removeModalTag.name`, not a
case-insensitive one. -/
theorem C4_counterexample :
    stRem.removeModalTag = some { name := "work", color := "#ef4444" } ∧
    tagsOf stRem.tags stRem.removeModalFolder =
      [{ name := "WORK", color := "#ef4444" }] ∧
    tagsOf (confirmRemoveTag stRem).tags stRem.removeModalFolder =
      [{ name := "WORK", color := "#ef4444" }] := by
  decide

/-- C4, witness: removing the globally last `Work` tag empties the folder
and purges `Work` from the selected filter tags. -/
theorem C4_removeTag_witness :
    tagsOf (confirmRemoveTag stRemW).tags stRemW.removeModalFolder =
      (tagsOf stRemW.tags stRemW.removeModalFolder).filter
        (fun t => decide (t.name ≠ "Work")) ∧
    "Work" ∉ (confirmRemoveTag stRemW).selectedFilterTags :=
  ⟨(C4_amended_removeTag stRemW { name := "Work", color := "#ef4444" }
      rfl (by decide)).1,
   (C4_amended_removeTag stRemW { name := "Work", color := "#ef4444" }
      rfl (by decide)).2 (by decide)⟩

/-- C10, witness: the frame conditions evaluated at an untouched folder. -/
theorem C10_tag_ops_frame_witness :
    tagsOf (confirmAddTag stAddW).tags "zz" = tagsOf stAddW.tags "zz" ∧
    tagsOf (confirmRemoveTag stRemW).tags "g" = tagsOf stRemW.tags "g" :=
  ⟨(C10_tag_ops_frame stAddW).2.2.2.1 "zz" (by decide),
   (C10_tag_ops_frame stRemW).2.2.2.2.2.2 "g" (by decide)⟩

/-! ## Claim C7: modal exclusivity -/

/-- The two modal-opening operations. -/
def openEv : Ev → Bool
  | .openAdd _ _ => true
  | .openRemove _ _ => true
  | _ => false

/-- At most one of the two modals is open. -/
def ModalExcl (st : AppState) : Prop :=
  ¬ (st.addModalOpen = true ∧ st.removeModalOpen = true)

instance (st : AppState) : Decidable (ModalExcl st) := by
  unfold ModalExcl; infer_instance

/-- Reachability through event steps under the UI discipline that the
modal-opening operations fire only while both modals are closed (in the
page, the open buttons sit behind the full-screen modal overlay). -/
inductive GuardedReach : AppState → AppState → Prop where
  | refl (st : AppState) : GuardedReach st st
  | next {s t : AppState} (e : Ev) (h : GuardedReach s t)
      (hg : openEv e = true →
        t.addModalOpen = false ∧ t.removeModalOpen = false) :
      GuardedReach s (step t e)

/-- `confirmAddTag` closes the add modal and never touches the remove
modal flag. -/
theorem confirmAddTag_flags (st : AppState) :
    (confirmAddTag st).addModalOpen = false ∧
    (confirmAddTag st).removeModalOpen = st.removeModalOpen := by
  unfold confirmAddTag
  dsimp only
  split_ifs <;> exact ⟨rfl, rfl⟩

/-- `confirmRemoveTag` closes the remove modal and never touches the add
modal flag. -/
theorem confirmRemoveTag_flags (st : AppState) :
    (confirmRemoveTag st).removeModalOpen = false ∧
    (confirmRemoveTag st).addModalOpen = st.addModalOpen := by
  unfold confirmRemoveTag
  cases st.removeModalTag <;> dsimp only <;>
    first
      | (split_ifs <;> exact ⟨rfl, rfl⟩)
      | exact ⟨rfl, rfl⟩

/-- A guarded event step preserves modal exclusivity. -/
theorem ModalExcl_step (t : AppState) (e : Ev) (h : ModalExcl t)
    (hg : openEv e = true →
      t.addModalOpen = false ∧ t.removeModalOpen = false) :
    ModalExcl (step t e) := by
  cases e with
  | arrowDown =>
    unfold ModalExcl at h ⊢
    unfold step
    split_ifs <;> dsimp only <;> exact h
  | arrowUp =>
    unfold ModalExcl at h ⊢
    unfold step
    split_ifs <;> dsimp only <;> exact h
  | setSearch s =>
    unfold ModalExcl at h ⊢
    dsimp only [step]
    exact h
  | setFilterTags ts =>
    unfold ModalExcl at h ⊢
    dsimp only [step]
    exact h
  | setNewTagName s =>
    unfold ModalExcl at h ⊢
    dsimp only [step]
    exact h
  | openAdd f c =>
    have hr := (hg rfl).2
    unfold ModalExcl
    dsimp only [step, openAddTagModal]
    intro hcontra
    rw [hr] at hcontra
    simp at hcontra
  | openRemove f tg =>
    have ha := (hg rfl).1
    unfold ModalExcl
    dsimp only [step, openRemoveTagModal]
    intro hcontra
    rw [ha] at hcontra
    simp at hcontra
  | confirmAdd =>
    unfold ModalExcl
    intro hcontra
    rw [show step t Ev.confirmAdd = confirmAddTag t from rfl,
      (confirmAddTag_flags t).1] at hcontra
    simp at hcontra
  | confirmRemove =>
    unfold ModalExcl
    intro hcontra
    rw [show step t Ev.confirmRemove = confirmRemoveTag t from rfl,
      (confirmRemoveTag_flags t).1] at hcontra
    simp at hcontra
  | escape =>
    unfold ModalExcl at h ⊢
    unfold step
    split_ifs <;> dsimp only <;>
      first
        | exact h
        | (intro hcontra; simp at hcontra)

/-- C7, amended: in every state reachable via the exposed modal operations
from a state where at most one modal is open, provided the two open
operations are only invoked while both modals are closed (the discipline
the full-screen overlay enforces in the UI), at most one of the add-tag
and remove-tag modals is open. -/
theorem C7_amended_modal_exclusive (s t : AppState) (h0 : ModalExcl s)
    (h : GuardedReach s t) : ModalExcl t := by
  induction h with
  | refl => exact h0
  | next e hreach hg ih => exact ModalExcl_step _ e ih hg

/-- C7, counterexample: the operations themselves do not enforce
exclusivity: `openRemoveTagModal` invoked right after `openAddTagModal`
(neither function checks the other flag) leaves both modals open
simultaneously. -/
theorem C7_counterexample :
    (run stBase [Ev.openAdd "a" "#3b82f6",
      Ev.openRemove "b" { name := "t", color := "#fff" }]).addModalOpen
        = true ∧
    (run stBase [Ev.openAdd "a" "#3b82f6",
      Ev.openRemove "b" { name := "t", color := "#fff" }]).removeModalOpen
        = true := by
  decide

/-- C7, witness: exclusivity after a concrete guarded run. -/
theorem C7_modal_exclusive_witness :
    ModalExcl (step stBase (Ev.openAdd "a" "#3b82f6")) :=
  C7_amended_modal_exclusive stBase _ (by decide)
    (GuardedReach.next (Ev.openAdd "a" "#3b82f6") (GuardedReach.refl stBase)
      (fun _ => by decide))

/-! ## Claim C6: the derived unique tag list -/

/-- The code-point order is asymmetric. -/
theorem strLtb_asymm : ∀ a b : List Char,
    strLtb a b = true → strLtb b a = false := by
  intro a
  induction a with
  | nil =>
    intro b h
    cases b with
    | nil => simp [strLtb] at h
    | cons d ds => rfl
  | cons c cs ih =>
    intro b h
    cases b with
    | nil => simp [strLtb] at h
    | cons d ds =>
      unfold strLtb at h ⊢
      by_cases h1 : c.toNat < d.toNat
      · rw [if_neg (show ¬ d.toNat < c.toNat by omega), if_pos h1]
      · rw [if_neg h1] at h
        by_cases h2 : d.toNat < c.toNat
        · rw [if_pos h2] at h
          exact absurd h (by simp)
        · rw [if_neg h2] at h
          rw [if_neg h2, if_neg h1]
          exact ih ds h

/-- Co-transitivity of the code-point order. -/
theorem strLtb_co_trans : ∀ a c : List Char, strLtb a c = true →
    ∀ b, strLtb a b = true ∨ strLtb b c = true := by
  intro a
  induction a with
  | nil =>
    intro c h b
    cases c with
    | nil => simp [strLtb] at h
    | cons d ds =>
      cases b with
      | nil => exact Or.inr rfl
      | cons e es => exact Or.inl rfl
  | cons c' cs ih =>
    intro c h b
    cases c with
    | nil => simp [strLtb] at h
    | cons d ds =>
      cases b with
      | nil => exact Or.inr rfl
      | cons e es =>
        unfold strLtb at h ⊢
        by_cases h1 : c'.toNat < d.toNat
        · by_cases h2 : c'.toNat < e.toNat
          · exact Or.inl (by rw [if_pos h2])
          · exact Or.inr (by rw [if_pos (show e.toNat < d.toNat by omega)])
        · rw [if_neg h1] at h
          by_cases h2 : d.toNat < c'.toNat
          · rw [if_pos h2] at h
            exact absurd h (by simp)
          · rw [if_neg h2] at h
            by_cases h3 : c'.toNat < e.toNat
            · exact Or.inl (by rw [if_pos h3])
            · by_cases h4 : e.toNat < c'.toNat
              · exact Or.inr
                  (by rw [if_pos (show e.toNat < d.toNat by omega)])
              · rcases ih ds h es with h5 | h5
                · refine Or.inl ?_
                  rw [if_neg h3, if_neg h4]
                  exact h5
                · refine Or.inr ?_
                  rw [if_neg (show ¬ e.toNat < d.toNat by omega),
                    if_neg (show ¬ d.toNat < e.toNat by omega)]
                  exact h5

/-- Asymmetry lifted to tag names. -/
theorem nameLtb_asymm (a b : Tag) :
    nameLtb a b = true → nameLtb b a = false :=
  strLtb_asymm a.name.toList b.name.toList

/-- Transitivity of the non-strict name order. -/
theorem nameLe_trans (a b c : Tag) (h1 : nameLtb b a = false)
    (h2 : nameLtb c b = false) : nameLtb c a = false := by
  by_cases h : nameLtb c a = true
  · rcases strLtb_co_trans c.name.toList a.name.toList h b.name.toList
      with h' | h'
    · have h2' : strLtb c.name.toList b.name.toList = false := h2
      rw [h2'] at h'
      exact absurd h' (by simp)
    · have h1' : strLtb b.name.toList a.name.toList = false := h1
      rw [h1'] at h'
      exact absurd h' (by simp)
  · exact Bool.eq_false_iff.mpr h

/-- The last tag carrying a given name, in iteration order: the
representative a JavaScript `Map` built from `[name, tag]` pairs keeps. -/
def lastNamed (n : String) (l : List Tag) : Option Tag :=
  (l.filter (fun t => t.name == n)).getLast?

/-- `lastNamed` through appending one element. -/
theorem lastNamed_append_one (n : String) (l : List Tag) (t : Tag) :
    lastNamed n (l ++ [t]) =
      if t.name = n then some t else lastNamed n l := by
  unfold lastNamed
  rw [List.filter_append]
  by_cases h : t.name = n
  · simp [h]
  · simp [h]

/-- The keys after a `Map.set`: unchanged for an existing key, appended
for a fresh one. -/
theorem mapInsert_keys (acc : List (String × Tag)) (k : String) (v : Tag) :
    (mapInsert acc k v).map Prod.fst =
      if acc.any (fun p => p.1 == k) then acc.map Prod.fst
      else acc.map Prod.fst ++ [k] := by
  unfold mapInsert
  by_cases hany : acc.any (fun p => p.1 == k) = true
  · rw [if_pos hany, if_pos hany, List.map_map]
    apply List.map_congr_left
    intro p _
    by_cases hp : (p.1 == k) = true
    · have hp2 : p.1 = k := by simpa using hp
      simp [hp, hp2]
    · have hp2 : ¬ p.1 = k := by simpa using hp
      simp [hp, hp2]
  · rw [if_neg hany, if_neg hany]
    simp

/-- Every entry after a `Map.set` is the inserted pair or an untouched
pair with a different key. -/
theorem mapInsert_mem (acc : List (String × Tag)) (k : String) (v : Tag)
    (q : String × Tag) (hq : q ∈ mapInsert acc k v) :
    q = (k, v) ∨ (q ∈ acc ∧ q.1 ≠ k) := by
  unfold mapInsert at hq
  by_cases hany : acc.any (fun p => p.1 == k) = true
  · rw [if_pos hany] at hq
    obtain ⟨p, hp, hpq⟩ := List.mem_map.mp hq
    by_cases hpk : (p.1 == k) = true
    · rw [if_pos hpk] at hpq
      exact Or.inl hpq.symm
    · rw [if_neg hpk] at hpq
      refine Or.inr ⟨hpq ▸ hp, ?_⟩
      rw [← hpq]
      simpa using hpk
  · rw [if_neg hany] at hq
    rcases List.mem_append.mp hq with h | h
    · refine Or.inr ⟨h, ?_⟩
      rw [Bool.not_eq_true, List.any_eq_false] at hany
      simpa using hany q h
    · exact Or.inl (by simpa using h)

/-- The existence test of `mapInsert` decides key membership. -/
theorem any_key_iff (acc : List (String × Tag)) (k : String) :
    acc.any (fun p => p.1 == k) = true ↔ k ∈ acc.map Prod.fst := by
  rw [List.any_eq_true]
  constructor
  · rintro ⟨p, hp, hpk⟩
    exact List.mem_map.mpr ⟨p, hp, by simpa using hpk⟩
  · intro h
    obtain ⟨p, hp, hpk⟩ := List.mem_map.mp h
    exact ⟨p, hp, by simp [hpk]⟩

/-- Invariant of the `Map`-building fold: keys are distinct, every value
is named by its key, the key set equals the processed-name set, and every
value is the last processed tag of its name. -/
theorem jsMap_foldl_inv (l : List Tag) :
    ∀ (acc : List (String × Tag)) (processed : List Tag),
    (acc.map Prod.fst).Nodup →
    (∀ p ∈ acc, (p.2).name = p.1) →
    (∀ k, k ∈ acc.map Prod.fst ↔ k ∈ processed.map Tag.name) →
    (∀ p ∈ acc, lastNamed p.1 processed = some p.2) →
    (((l.foldl (fun a t => mapInsert a t.name t) acc).map Prod.fst).Nodup ∧
     (∀ p ∈ l.foldl (fun a t => mapInsert a t.name t) acc,
        (p.2).name = p.1) ∧
     (∀ k, k ∈ (l.foldl (fun a t => mapInsert a t.name t) acc).map Prod.fst ↔
        k ∈ (processed ++ l).map Tag.name) ∧
     (∀ p ∈ l.foldl (fun a t => mapInsert a t.name t) acc,
        lastNamed p.1 (processed ++ l) = some p.2)) := by
  induction l with
  | nil =>
    intro acc processed ha hb hc hd
    rw [List.append_nil]
    exact ⟨ha, hb, hc, hd⟩
  | cons t rest ih =>
    intro acc processed ha hb hc hd
    rw [show (t :: rest).foldl (fun a t => mapInsert a t.name t) acc =
      rest.foldl (fun a t => mapInsert a t.name t) (mapInsert acc t.name t)
      from rfl]
    rw [show processed ++ t :: rest = (processed ++ [t]) ++ rest by simp]
    refine ih (mapInsert acc t.name t) (processed ++ [t]) ?_ ?_ ?_ ?_
    · rw [mapInsert_keys]
      by_cases hany : acc.any (fun p => p.1 == t.name) = true
      · rw [if_pos hany]; exact ha
      · rw [if_neg hany]
        have hnot : t.name ∉ acc.map Prod.fst :=
          fun hmem => hany ((any_key_iff _ _).mpr hmem)
        simp [List.nodup_append, ha, hnot]
    · intro p hp
      rcases mapInsert_mem acc t.name t p hp with h | ⟨hmem, _⟩
      · rw [h]
      · exact hb p hmem
    · intro k
      rw [mapInsert_keys]
      by_cases hany : acc.any (fun p => p.1 == t.name) = true
      · rw [if_pos hany, hc k]
        constructor
        · intro h; simp [h]
        · intro h
          rcases (by simpa using h :
              k ∈ processed.map Tag.name ∨ k = t.name) with h1 | h1
          · exact h1
          · have h2 := (any_key_iff acc t.name).mp hany
            rw [hc] at h2
            rwa [h1]
      · rw [if_neg hany]
        simp only [List.map_append, List.mem_append, List.map_cons,
          List.map_nil, List.mem_singleton]
        rw [hc k]
    · intro p hp
      rcases mapInsert_mem acc t.name t p hp with h | ⟨hmem, hne⟩
      · rw [h, lastNamed_append_one]
        simp
      · rw [lastNamed_append_one, if_neg (fun hh => hne hh.symm)]
        exact hd p hmem

/-- The deduplicated tag list has pairwise-distinct names, exactly the
names occurring in the input, and keeps for each name the last tag of that
name in iteration order. -/
theorem jsMapValues_spec (l : List Tag) :
    ((jsMapValues l).map Tag.name).Nodup ∧
    (∀ n, n ∈ (jsMapValues l).map Tag.name ↔ n ∈ l.map Tag.name) ∧
    (∀ t ∈ jsMapValues l, lastNamed t.name l = some t) := by
  obtain ⟨ha, hb, hc, hd⟩ := jsMap_foldl_inv l [] []
    (by simp) (by simp) (by simp) (by simp)
  have hnames : (jsMapValues l).map Tag.name =
      (l.foldl (fun a t => mapInsert a t.name t) []).map Prod.fst := by
    unfold jsMapValues
    rw [List.map_map]
    exact List.map_congr_left hb
  refine ⟨?_, ?_, ?_⟩
  · rw [hnames]; exact ha
  · intro n
    rw [hnames, hc n]
    simp
  · intro t ht
    obtain ⟨p, hp, hpt⟩ := List.mem_map.mp ht
    have hlast := hd p hp
    rw [List.nil_append] at hlast
    rw [← hpt, hb p hp]
    exact hlast

/-- Sorted insertion is a permutation. -/
theorem insertByName_perm (t : Tag) (l : List Tag) :
    (insertByName t l).Perm (t :: l) := by
  induction l with
  | nil => exact List.Perm.refl _
  | cons x xs ih =>
    unfold insertByName
    split_ifs
    · exact (ih.cons x).trans (List.Perm.swap t x xs)
    · exact List.Perm.refl _

/-- The sort is a permutation. -/
theorem sortByName_perm (l : List Tag) : (sortByName l).Perm l := by
  induction l with
  | nil => exact List.Perm.refl _
  | cons x xs ih =>
    exact (insertByName_perm x (sortByName xs)).trans (ih.cons x)

/-- Sorted insertion preserves sortedness by name. -/
theorem insertByName_sorted (t : Tag) (l : List Tag)
    (h : l.Pairwise (fun a b => nameLtb b a = false)) :
    (insertByName t l).Pairwise (fun a b => nameLtb b a = false) := by
  induction l with
  | nil =>
    exact List.Pairwise.cons (fun b hb => absurd hb (List.not_mem_nil b))
      List.Pairwise.nil
  | cons x xs ih =>
    rw [List.pairwise_cons] at h
    unfold insertByName
    split_ifs with hlt
    · rw [List.pairwise_cons]
      refine ⟨?_, ih h.2⟩
      intro b hb
      rcases List.mem_cons.mp ((insertByName_perm t xs).mem_iff.mp hb)
        with hb | hb
      · rw [hb]
        exact nameLtb_asymm x t hlt
      · exact h.1 b hb
    · have hxt : nameLtb x t = false := Bool.eq_false_iff.mpr hlt
      rw [List.pairwise_cons]
      refine ⟨?_, List.pairwise_cons.mpr h⟩
      intro b hb
      rcases List.mem_cons.mp hb with hb | hb
      · rw [hb]; exact hxt
      · exact nameLe_trans t x b hxt (h.1 b hb)

/-- The sort output is sorted by name. -/
theorem sortByName_sorted (l : List Tag) :
    (sortByName l).Pairwise (fun a b => nameLtb b a = false) := by
  induction l with
  | nil => exact List.Pairwise.nil
  | cons x xs ih => exact insertByName_sorted x (sortByName xs) ih

/-- C6, amended: the derived global unique tag set contains exactly one
Tag per distinct *exact* (not case-insensitive) tag name across all
profiles, the representative chosen for each name being the *last* (not
first) tag of that name encountered in the iteration order of the mapping,
and the result is sorted by name (the locale comparator modelled as
code-point order). -/
theorem C6_amended_unique_tags (tags : TagMap) :
    ((allUniqueTags tags).map Tag.name).Nodup ∧
    (∀ n, n ∈ (allUniqueTags tags).map Tag.name ↔
      n ∈ ((tags.map (fun p => p.2)).flatten).map Tag.name) ∧
    (∀ t ∈ allUniqueTags tags,
      lastNamed t.name ((tags.map (fun p => p.2)).flatten) = some t) ∧
    (allUniqueTags tags).Pairwise (fun a b => nameLtb b a = false) := by
  obtain ⟨h1, h2, h3⟩ :=
    jsMapValues_spec ((tags.map (fun p => p.2)).flatten)
  have hperm :=
    sortByName_perm (jsMapValues ((tags.map (fun p => p.2)).flatten))
  refine ⟨?_, ?_, ?_, ?_⟩
  · exact ((hperm.map Tag.name).nodup_iff).mpr h1
  · intro n
    rw [← h2 n]
    exact (hperm.map Tag.name).mem_iff
  · intro t ht
    exact h3 t (hperm.mem_iff.mp ht)
  · exact sortByName_sorted _

/-- Two tags whose names differ only in case, on different folders. -/
def tgC6a : TagMap :=
  [("a", [{ name := "Work", color := "#111111" }]),
   ("b", [{ name := "work", color := "#222222" }])]

/-- Two tags with the same exact name and different colors. -/
def tgC6b : TagMap :=
  [("a", [{ name := "Work", color := "#111111" }]),
   ("b", [{ name := "Work", color := "#222222" }])]

/-- C6, counterexample: `new Map(...)` keys on the exact name, so `Work`
and `work` both survive deduplication (two output tags whose lowercased
names coincide), and among duplicates of one exact name the *last* value
wins (`#222222`), not the first encountered (`#111111`). -/
theorem C6_counterexample :
    allUniqueTags tgC6a =
      [{ name := "Work", color := "#111111" },
       { name := "work", color := "#222222" }] ∧
    strToLower "Work" = strToLower "work" ∧
    allUniqueTags tgC6b = [{ name := "Work", color := "#222222" }] ∧
    ({ name := "Work", color := "#111111" } : Tag) ∉ allUniqueTags tgC6b :=
  ⟨by decide, by decide, by decide, by decide⟩

/-- C6, witness: the last-occurrence representative evaluated on the
duplicate-name mapping. -/
theorem C6_unique_tags_witness :
    lastNamed ({ name := "Work", color := "#222222" } : Tag).name
        ((tgC6b.map (fun p => p.2)).flatten) =
      some { name := "Work", color := "#222222" } :=
  (C6_amended_unique_tags tgC6b).2.2.1
    { name := "Work", color := "#222222" } (by decide)
